import Mathlib

/-!
Verification of the `closer` conversational-memory subsystem.

This file gives a shallow embedding of the core operations of
`dev_server.py` (the `MemoryStore` class, the `query_memory` MCP tool,
the `reflect` / `dream` synthesis tools and their validators) together
with the key-allocation behaviour exercised by
`cleanup_production_memory.py`, and proves or refutes the specified
properties about them.

Conventions of the embedding:
* Machine floats used for distances and relevance scores are modelled
  as rationals (`ℚ`); the arithmetic involved (`1 - d`, `max`) is exact.
* External collaborators (embedding service, vector-index engine,
  completion service, filesystem) are modelled at their interface
  boundary: their outcomes enter the definitions as explicit parameters
  (result lists, success flags, `Except` values).
* Python exceptions are modelled with `Except` / sentinel results;
  a function that catches internally is modelled as a total function.
* Text is modelled as `List Char`; the external reference tokenizer
  (tiktoken) is modelled character-wise, see `dreamEncode` below.
-/

namespace Closer

/- ────────────────────────────────────────────────────────────────────
   § Retrieval Scorer
   dev_server.py, `MemoryStore.query` line 226:
   `similarity = max(0.0, 1.0 - d)`
   ──────────────────────────────────────────────────────────────────── -/

/-- Embeds the similarity computation of `MemoryStore.query`:
`similarity = max(0.0, 1.0 - d)`. -/
def relevanceOfDistance (d : ℚ) : ℚ := max 0 (1 - d)

/-- Spec-side scorer, for refinement comparison: the spec's
`relevance = clamp(1 − d, 0, 1)`. -/
def specClampRelevance (d : ℚ) : ℚ := max 0 (min 1 (1 - d))

/-- C1 counterexample: at raw distance `d = -1` the code's score is `2`,
which differs from the spec's `clamp(1 − d, 0, 1) = 1` and lies outside
`[0, 1]`. -/
theorem relevance_not_clamped_at_neg_one :
    relevanceOfDistance (-1) = 2 ∧ specClampRelevance (-1) = 1 ∧
      ¬ relevanceOfDistance (-1) ≤ 1 := by
  refine ⟨?_, ?_, ?_⟩ <;> norm_num [relevanceOfDistance, specClampRelevance]

/-- C1 (amended): for every nonnegative raw distance `d` the relevance
score computed by the store equals `clamp(1 − d, 0, 1)` and lies in
`[0, 1]`; the lower clamp alone guarantees this for `d > 2`, but for
`d < 0` the score exceeds `1`. -/
theorem relevance_clamp_of_nonneg (d : ℚ) (hd : 0 ≤ d) :
    relevanceOfDistance d = specClampRelevance d ∧
      0 ≤ relevanceOfDistance d ∧ relevanceOfDistance d ≤ 1 := by
  have h1 : (1 : ℚ) - d ≤ 1 := by linarith
  refine ⟨?_, le_max_left _ _, ?_⟩
  · simp [relevanceOfDistance, specClampRelevance, min_eq_right h1]
  · exact max_le (by norm_num) h1

/-- Witness for `relevance_clamp_of_nonneg` at the concrete distance `3/2`. -/
theorem relevance_clamp_of_nonneg_witness :
    relevanceOfDistance (3 / 2) = specClampRelevance (3 / 2) ∧
      0 ≤ relevanceOfDistance (3 / 2) ∧ relevanceOfDistance (3 / 2) ≤ 1 :=
  relevance_clamp_of_nonneg (3 / 2) (by norm_num)

/- ────────────────────────────────────────────────────────────────────
   § Reflection depth validation
   dev_server.py, `validate_reflection_depth` lines 635-651 and
   `reflect` lines 699-759.
   ──────────────────────────────────────────────────────────────────── -/

/-- The argument Python passes to `validate_reflection_depth`: an `int`,
a value `int(...)` can convert (e.g. a numeric string), or a value the
conversion rejects with `ValueError`/`TypeError`. -/
inductive DepthInput
  | intVal (n : ℤ)
  | numericVal (n : ℤ)
  | nonNumeric
deriving DecidableEq

/-- Embeds Python's `int(depth)` conversion attempted by
`validate_reflection_depth`: `none` models the raised
`ValueError`/`TypeError`. -/
def pyToInt : DepthInput → Option ℤ
  | .intVal n => some n
  | .numericVal n => some n
  | .nonNumeric => none

/-- Embeds `validate_reflection_depth`: non-numeric input defaults to 1,
values below 1 are raised to 1, values above 3 are capped at 3. -/
def validate_reflection_depth (depth : DepthInput) : ℤ :=
  match pyToInt depth with
  | none => 1
  | some n => if n < 1 then 1 else if n > 3 then 3 else n

/-- Observable output of the `reflect` tool: the returned text together
with the depth marker it carries (`[Reflection depth: d/3]` on success,
`at depth d/3` in the fallback text). -/
structure ReflectOutput where
  body : String
  depthMarker : ℤ
  terminalMarker : Bool
deriving DecidableEq

/-- Embeds the `reflect` tool.  The completion-service call is an
explicit parameter: `Except.ok txt` models a successful chat completion,
`Except.error e` models an exception caught by the handler, which
returns the turbulence fallback carrying
`safe_depth = validate_reflection_depth(depth)`. -/
def reflect (depth : DepthInput) (completion : Except String String) :
    ReflectOutput :=
  let d := validate_reflection_depth depth
  match completion with
  | .ok txt => ⟨txt, d, d = 3⟩
  | .error e =>
      ⟨"Reflection encounters turbulence at depth " ++ toString d ++
        "/3. The introspective process needs recalibration. " ++ e, d, false⟩

/-- C5: for every depth input (numeric or not) and every
completion-service outcome, `reflect` returns (never raises) an output
whose depth marker lies in `{1, 2, 3}`; in particular depths 0 and −1
are corrected to 1, depths 4 and 10 are corrected to 3, and non-numeric
input is corrected to 1. -/
theorem reflect_depth_marker_in_range (depth : DepthInput)
    (completion : Except String String) :
    (1 ≤ (reflect depth completion).depthMarker ∧
      (reflect depth completion).depthMarker ≤ 3) ∧
    validate_reflection_depth (.intVal 0) = 1 ∧
    validate_reflection_depth (.intVal (-1)) = 1 ∧
    validate_reflection_depth (.intVal 1) = 1 ∧
    validate_reflection_depth (.intVal 2) = 2 ∧
    validate_reflection_depth (.intVal 3) = 3 ∧
    validate_reflection_depth (.intVal 4) = 3 ∧
    validate_reflection_depth (.intVal 10) = 3 ∧
    validate_reflection_depth .nonNumeric = 1 := by
  refine ⟨?_, by decide, by decide, by decide, by decide, by decide,
    by decide, by decide, by decide⟩
  have hrange : 1 ≤ validate_reflection_depth depth ∧
      validate_reflection_depth depth ≤ 3 := by
    cases depth <;> simp only [validate_reflection_depth, pyToInt] <;>
      (try split_ifs) <;> omega
  cases completion <;> exact hrange

/- ────────────────────────────────────────────────────────────────────
   § Store identity derivation
   dev_server.py, `MemoryStore.__init__` lines 55-87.
   ──────────────────────────────────────────────────────────────────── -/

/-- Ambient environment observed by `MemoryStore.__init__`:
the `DOCKER_ENV` variable, the existence of `/app`, and (abstractly) the
directory containing the source file. -/
structure Env where
  dockerEnv : Bool
  appExists : Bool
  sourceDir : ℕ
deriving DecidableEq

/-- Resolved database path.  `tempfile.mkdtemp()` is modelled by a
fresh-token allocator: each call consumes a counter value and no two
calls return the same directory, and the temporary root is distinct
from `/app/closer_memory_db` and from the source-adjacent directory. -/
inductive DbPath
  | temp (token : ℕ) (sub : String)
  | dockerApp
  | localDir (parent : ℕ)
deriving DecidableEq

/-- Store identity fixed at construction: database path and collection
name. -/
structure StoreIdentity where
  dbPath : DbPath
  collectionName : String
deriving DecidableEq

/-- Embeds the identity-resolution part of `MemoryStore.__init__`
(the `is_test_env` branch structure), threading the `mkdtemp` allocator
counter.  Returns the resolved identity and the updated counter. -/
def resolveIdentity (testMode : Bool) (env : Env) (tempCtr : ℕ) :
    StoreIdentity × ℕ :=
  if testMode then
    (⟨.temp tempCtr "test_memory_db", "test_mem"⟩, tempCtr + 1)
  else if env.dockerEnv || env.appExists then
    (⟨.dockerApp, "closer_mem"⟩, tempCtr)
  else
    (⟨.localDir env.sourceDir, "closer_mem"⟩, tempCtr)

/-- C8: two test-mode stores constructed back to back resolve to
distinct storage locations; a test-mode store never shares a storage
location with any production store; and a production store constructed
twice in the same environment resolves to the same storage location and
the same collection name both times. -/
theorem store_identity_isolation (env env' envp : Env) (ctr ctr' ctrp : ℕ) :
    (resolveIdentity true env ctr).1.dbPath ≠
      (resolveIdentity true env' (resolveIdentity true env ctr).2).1.dbPath ∧
    (resolveIdentity true env ctr).1.dbPath ≠
      (resolveIdentity false envp ctrp).1.dbPath ∧
    (resolveIdentity false env ctr).1 = (resolveIdentity false env ctr').1 := by
  refine ⟨?_, ?_, ?_⟩
  · simp [resolveIdentity]
  · by_cases h : envp.dockerEnv || envp.appExists <;> simp [resolveIdentity, h]
  · by_cases h : env.dockerEnv || env.appExists <;> simp [resolveIdentity, h]

/- ────────────────────────────────────────────────────────────────────
   § Store construction and the storage-provisioning fallback
   dev_server.py, `MemoryStore.__init__` lines 87-134.
   ──────────────────────────────────────────────────────────────────── -/

/-- Outcome of `MemoryStore.__init__`: either a constructed store with
its database path and collection, or a propagated Python exception. -/
inductive InitResult
  | ok (path : DbPath) (collection : String)
  | raised
deriving DecidableEq

/-- Embeds `MemoryStore.__init__` after identity resolution.
`mkdirOk` is the outcome of `self.db_path.mkdir(...)` (line 87, outside
any handler), `chromaOk` the outcome of the guarded ChromaDB
initialization, `fallbackOk` the outcome of the temp-directory fallback
block inside the `except` handler. -/
def memoryStoreInit (testMode : Bool) (env : Env) (tempCtr : ℕ)
    (mkdirOk chromaOk fallbackOk : Bool) : InitResult :=
  let r := resolveIdentity testMode env tempCtr
  if mkdirOk = false then .raised
  else if chromaOk then .ok r.1.dbPath r.1.collectionName
  else if fallbackOk then .ok (.temp r.2 "closer_memory_db") r.1.collectionName
  else .raised

/-- C9 counterexample: when the resolved storage location cannot be
created (`mkdir` fails), construction raises instead of falling back —
the directory-creation call sits outside the exception handler. -/
theorem init_raises_on_mkdir_failure :
    memoryStoreInit false ⟨false, false, 0⟩ 0 false true true =
      InitResult.raised := by
  decide

/-- C9 (amended): construction falls back to a freshly allocated
volatile directory and completes only for failures of the vector-index
engine initialization at the resolved location (when the fallback
allocation itself succeeds); a failure to create the resolved storage
directory itself propagates and construction raises. -/
theorem init_fallback_on_chroma_failure (testMode : Bool) (env : Env)
    (tempCtr : ℕ) (fallbackOk : Bool) :
    (memoryStoreInit testMode env tempCtr true false true =
      InitResult.ok (.temp (resolveIdentity testMode env tempCtr).2
        "closer_memory_db")
        (resolveIdentity testMode env tempCtr).1.collectionName) ∧
    (∀ chromaOk, memoryStoreInit testMode env tempCtr false chromaOk
      fallbackOk = InitResult.raised) := by
  constructor
  · simp [memoryStoreInit]
  · intro chromaOk; simp [memoryStoreInit]

/- ────────────────────────────────────────────────────────────────────
   § The caller-facing query_memory tool
   dev_server.py, `query_memory` lines 311-363.
   ──────────────────────────────────────────────────────────────────── -/

/-- A record produced by `MemoryStore.query` / returned by
`query_memory`.  `distance` is the internal debugging field; `none`
models its absence from the dict. -/
structure QueryRecord where
  text : String
  relevance : ℚ
  savedAt : String
  distance : Option ℚ
deriving DecidableEq

/-- Embeds `r.pop("distance", None)` applied to a result record. -/
def popDistance (r : QueryRecord) : QueryRecord :=
  ⟨r.text, r.relevance, r.savedAt, none⟩

/-- Embeds the `query_memory` MCP tool.  `count` is
`memory.col.count()`; `storeResult` is the outcome of the inner
store-level query (`Except.error` models an exception caught by the
handler). -/
def query_memory (count : ℕ) (queryText : String)
    (storeResult : Except String (List QueryRecord)) : List QueryRecord :=
  if count = 0 then [⟨"No memories stored yet", 0, "", none⟩]
  else
    match storeResult with
    | .error e => [⟨"Memory query failed: " ++ e, 0, "", none⟩]
    | .ok results =>
        if results = [] then
          [⟨"No relevant memories found for: " ++ queryText, 0, "", none⟩]
        else results.map popDistance

/-- C10: `query_memory` never returns an empty list; the empty-store
case returns exactly the "No memories stored yet" sentinel with
relevance 0 and empty timestamp; a store-level miss or failure returns
exactly one sentinel record with relevance 0; and the internal
`distance` field is absent from every returned record. -/
theorem query_memory_never_empty (count : ℕ) (queryText : String)
    (storeResult : Except String (List QueryRecord)) :
    query_memory count queryText storeResult ≠ [] ∧
    (∀ r ∈ query_memory count queryText storeResult, r.distance = none) ∧
    (count = 0 → query_memory count queryText storeResult =
      [⟨"No memories stored yet", 0, "", none⟩]) ∧
    (∀ e, count ≠ 0 → storeResult = .error e →
      query_memory count queryText storeResult =
        [⟨"Memory query failed: " ++ e, 0, "", none⟩]) ∧
    (count ≠ 0 → storeResult = .ok [] →
      query_memory count queryText storeResult =
        [⟨"No relevant memories found for: " ++ queryText, 0, "", none⟩]) := by
  unfold query_memory
  by_cases hc : count = 0
  · simp [hc]
  · cases storeResult with
    | error e => simp [hc, popDistance]
    | ok results =>
        by_cases hr : results = []
        · simp [hc, hr]
        · refine ⟨by simp [hc, hr], ?_, by simp [hc], ?_, ?_⟩
          · intro r hrmem
            simp only [hc, if_neg hc, hr, if_neg hr] at hrmem
            obtain ⟨s, _, rfl⟩ := List.mem_map.mp hrmem
            rfl
          · intro e _ h; cases h
          · intro _ h
            simp only [Except.ok.injEq] at h
            exact absurd h hr

/-- Witness for `query_memory_never_empty` on a store with one real
result carrying a distance field. -/
theorem query_memory_never_empty_witness :
    query_memory 2 "q" (.ok [⟨"m", 1/2, "t", some (1/2)⟩]) ≠ [] ∧
    (∀ r ∈ query_memory 2 "q" (.ok [⟨"m", 1/2, "t", some (1/2)⟩]),
      r.distance = none) ∧
    ((2 : ℕ) = 0 → query_memory 2 "q" (.ok [⟨"m", 1/2, "t", some (1/2)⟩]) =
      [⟨"No memories stored yet", 0, "", none⟩]) ∧
    (∀ e, (2 : ℕ) ≠ 0 →
      (.ok [⟨"m", (1:ℚ)/2, "t", some (1/2)⟩] :
        Except String (List QueryRecord)) = .error e →
      query_memory 2 "q" (.ok [⟨"m", 1/2, "t", some (1/2)⟩]) =
        [⟨"Memory query failed: " ++ e, 0, "", none⟩]) ∧
    ((2 : ℕ) ≠ 0 →
      (.ok [⟨"m", (1:ℚ)/2, "t", some (1/2)⟩] :
        Except String (List QueryRecord)) = .ok [] →
      query_memory 2 "q" (.ok [⟨"m", 1/2, "t", some (1/2)⟩]) =
        [⟨"No relevant memories found for: " ++ "q", 0, "", none⟩]) :=
  query_memory_never_empty 2 "q" (.ok [⟨"m", 1/2, "t", some (1/2)⟩])

/- ────────────────────────────────────────────────────────────────────
   § Key allocation across add / delete / reconstruction
   dev_server.py, `MemoryStore._load_index` lines 139-154 and
   `MemoryStore.add` lines 164-188; deletions as performed by
   cleanup_production_memory.py lines 144-163.
   ──────────────────────────────────────────────────────────────────── -/

/-- Embeds the `next_index` computation of `_load_index`:
`max(self.id_map.keys(), default=-1) + 1`, i.e. `0` on an empty map. -/
def nextOnLoad (keys : List ℕ) : ℕ :=
  match keys with
  | [] => 0
  | _ => keys.foldr max 0 + 1

/-- An event in the life of one storage location: a successful `add`,
a deletion of a key (cleanup script: `del memory.id_map[idx]` followed
by `_save_index`), or a store reconstruction against the same location
(which reruns `_load_index` on the persisted map). -/
inductive StoreEvent
  | add
  | deleteKey (k : ℕ)
  | reload
deriving DecidableEq

/-- Key-allocation state of a storage location.  `keys` is the key set
of the Index Map (in insertion order, as a Python dict); every `add`
and every delete persists it, so the in-memory and on-disk maps agree.
`assigned` is the ghost history of keys returned by `add`. -/
structure KeyState where
  keys : List ℕ
  nextIndex : ℕ
  assigned : List ℕ
deriving DecidableEq

/-- Embeds one event: `add` assigns `next_index`, records it in the map
and increments; delete removes the key (leaving `next_index` alone);
reconstruction recomputes `next_index` via `_load_index`. -/
def stepEvent (s : KeyState) : StoreEvent → KeyState
  | .add => ⟨s.keys ++ [s.nextIndex], s.nextIndex + 1, s.assigned ++ [s.nextIndex]⟩
  | .deleteKey k => ⟨s.keys.erase k, s.nextIndex, s.assigned⟩
  | .reload => ⟨s.keys, nextOnLoad s.keys, s.assigned⟩

/-- Runs a sequence of events from a state. -/
def runEvents (s : KeyState) : List StoreEvent → KeyState
  | [] => s
  | e :: es => runEvents (stepEvent s e) es

/-- The state of a fresh storage location: empty map, `next_index = 0`. -/
def initState : KeyState := ⟨[], 0, []⟩

/-- C2 counterexample: add twice (keys 0, 1), delete key 1, reconstruct,
add again — the `max + 1` rule reassigns key 1, so a key is assigned
twice after a deletion of the maximal key followed by reconstruction. -/
theorem key_reused_after_delete_and_reload :
    (runEvents initState
      [.add, .add, .deleteKey 1, .reload, .add]).assigned = [0, 1, 1] ∧
    ¬ (runEvents initState
      [.add, .add, .deleteKey 1, .reload, .add]).assigned.Nodup := by
  constructor
  · rfl
  · decide

/-- Invariant used for the amended C2: assigned keys are strictly
increasing and all lie below `next_index`. -/
def KeyInv (s : KeyState) : Prop :=
  s.assigned.Chain' (· < ·) ∧ ∀ a ∈ s.assigned, a < s.nextIndex

theorem keyInv_init : KeyInv initState := by
  constructor
  · exact List.chain'_nil
  · intro a ha; cases ha

theorem keyInv_step (s : KeyState) (e : StoreEvent) (he : e ≠ .reload)
    (h : KeyInv s) : KeyInv (stepEvent s e) := by
  obtain ⟨hchain, hbound⟩ := h
  cases e with
  | reload => exact absurd rfl he
  | deleteKey k => exact ⟨hchain, hbound⟩
  | add =>
      constructor
      · show (s.assigned ++ [s.nextIndex]).Chain' (· < ·)
        refine List.Chain'.append hchain (List.chain'_singleton _) ?_
        intro x hx y hy
        simp only [List.head?_cons, Option.mem_def, Option.some.injEq] at hy
        subst hy
        exact hbound x (List.mem_of_mem_getLast? hx)
      · show ∀ a ∈ s.assigned ++ [s.nextIndex], a < s.nextIndex + 1
        intro a ha
        rcases List.mem_append.mp ha with h' | h'
        · exact Nat.lt_succ_of_lt (hbound a h')
        · rw [List.mem_singleton] at h'; omega

theorem keyInv_run (s : KeyState) (evs : List StoreEvent)
    (hnr : ∀ e ∈ evs, e ≠ .reload) (h : KeyInv s) :
    KeyInv (runEvents s evs) := by
  induction evs generalizing s with
  | nil => exact h
  | cons e es ih =>
      exact ih (stepEvent s e)
        (fun e' he' => hnr e' (List.mem_cons_of_mem e he'))
        (keyInv_step s e (hnr e (List.mem_cons_self e es)) h)

/-- Each member of a list of naturals is bounded by its `max` fold. -/
theorem le_foldr_max (k : ℕ) (l : List ℕ) (hk : k ∈ l) :
    k ≤ l.foldr max 0 := by
  induction l with
  | nil => cases hk
  | cons a as ih =>
      rcases List.mem_cons.mp hk with rfl | h'
      · simp
      · exact le_trans (ih h') (le_max_right _ _)

/-- C2 (amended): on load the next assignable key is
`max(existing keys) + 1` (or `0` if the map is empty), so reloading
always places `next_index` strictly above every key still present; and
within a single store instance — i.e. for every event sequence without
reconstruction — the keys returned by `add` are strictly increasing and
never repeated, even after arbitrary deletions.  (Reconstruction after
deleting the maximal key can reassign a key, per the counterexample.) -/
theorem keys_fresh_without_reload (evs : List StoreEvent)
    (hnr : ∀ e ∈ evs, e ≠ .reload) :
    (runEvents initState evs).assigned.Chain' (· < ·) ∧
    (runEvents initState evs).assigned.Nodup ∧
    (∀ keys : List ℕ, (keys = [] → nextOnLoad keys = 0) ∧
      ∀ k ∈ keys, k < nextOnLoad keys) := by
  obtain ⟨hchain, _⟩ := keyInv_run initState evs hnr keyInv_init
  refine ⟨hchain, (List.chain'_iff_pairwise.mp hchain).nodup, ?_⟩
  intro keys
  constructor
  · intro h; subst h; rfl
  · intro k hk
    have h1 : k ≤ keys.foldr max 0 := le_foldr_max k keys hk
    cases keys with
    | nil => cases hk
    | cons a as => simpa [nextOnLoad] using Nat.lt_succ_of_le h1

/-- Witness for `keys_fresh_without_reload`: one instance adds, deletes
key 0, adds again — keys 0 then 1, strictly increasing, no repeats. -/
theorem keys_fresh_without_reload_witness :
    (runEvents initState [.add, .deleteKey 0, .add]).assigned.Chain' (· < ·) ∧
    (runEvents initState [.add, .deleteKey 0, .add]).assigned.Nodup ∧
    (∀ keys : List ℕ, (keys = [] → nextOnLoad keys = 0) ∧
      ∀ k ∈ keys, k < nextOnLoad keys) :=
  keys_fresh_without_reload [.add, .deleteKey 0, .add] (by decide)

/- ────────────────────────────────────────────────────────────────────
   § MemoryStore.query: result count and ordering
   dev_server.py, `MemoryStore.query` lines 204-243.
   ──────────────────────────────────────────────────────────────────── -/

/-- A raw hit returned by the vector-index engine: the stored metadata
(text, timestamp) and the raw distance. -/
structure Hit where
  text : String
  ts : String
  dist : ℚ
deriving DecidableEq

/-- Embeds `MemoryStore.query`.  `ok` models the enclosing exception
handler (any failure yields `[]`); `count` is `self.col.count()`;
`hits` is what `self.col.query(..., n_results=min(k, count))` returns
(the engine's contract — at most `min(k, count)` hits, in
non-decreasing distance order — enters the theorems as hypotheses).
Each hit is mapped through `max(0.0, 1.0 - d)` in engine order. -/
def storeQuery (ok : Bool) (count _k : ℕ) (hits : List Hit) :
    List QueryRecord :=
  if ok = false then []
  else if count = 0 then []
  else if hits = [] then []
  else hits.map fun h => ⟨h.text, relevanceOfDistance h.dist, h.ts, some h.dist⟩

/-- The scorer is antitone: larger distances never score higher. -/
theorem relevanceOfDistance_antitone {d d' : ℚ} (h : d ≤ d') :
    relevanceOfDistance d' ≤ relevanceOfDistance d :=
  max_le_max le_rfl (by linarith)

/-- C4: given the engine contract (at most `min(k, N)` hits, in
non-decreasing distance order), `query` returns at most `min(k, N)`
results whose relevances are non-increasing in the engine's order (the
store maps, never re-sorts, and the score is an antitone transform of
distance), and an empty collection yields the empty sequence. -/
theorem storeQuery_bounded_and_sorted (ok : Bool) (count k : ℕ)
    (hits : List Hit) (hlen : hits.length ≤ min k count)
    (hsorted : hits.Chain' fun a b => a.dist ≤ b.dist) :
    (storeQuery ok count k hits).length ≤ min k count ∧
    (storeQuery ok count k hits).Chain' (fun a b => b.relevance ≤ a.relevance) ∧
    (count = 0 → storeQuery ok count k hits = []) := by
  unfold storeQuery
  by_cases hok : ok = false
  · simp [hok]
  · by_cases hc : count = 0
    · simp [hok, hc]
    · by_cases hh : hits = []
      · simp [hok, hc, hh]
      · refine ⟨?_, ?_, fun h => absurd h hc⟩
        · simpa [hok, hc, hh] using hlen
        · rw [if_neg hok, if_neg hc, if_neg hh, List.chain'_map]
          exact hsorted.imp fun a b hab => relevanceOfDistance_antitone hab

/-- Witness for `storeQuery_bounded_and_sorted` on two distance-ordered
hits in a two-memory store. -/
theorem storeQuery_bounded_and_sorted_witness :
    (storeQuery true 2 5 [⟨"a", "t1", 1/2⟩, ⟨"b", "t2", 1⟩]).length ≤
        min 5 2 ∧
    (storeQuery true 2 5 [⟨"a", "t1", 1/2⟩, ⟨"b", "t2", 1⟩]).Chain'
        (fun a b => b.relevance ≤ a.relevance) ∧
    ((2 : ℕ) = 0 →
      storeQuery true 2 5 [⟨"a", "t1", 1/2⟩, ⟨"b", "t2", 1⟩] = []) :=
  storeQuery_bounded_and_sorted true 2 5 [⟨"a", "t1", 1/2⟩, ⟨"b", "t2", 1⟩]
    (by norm_num) (by norm_num [List.chain'_cons])

/- ────────────────────────────────────────────────────────────────────
   § MemoryStore.add failure atomicity
   dev_server.py, `MemoryStore.add` lines 164-188 and
   `MemoryStore._save_index` lines 156-161.
   ──────────────────────────────────────────────────────────────────── -/

/-- Store state observable by `add`: the vector-index entries (key and
text metadata), the Index Map keys, the allocation counter, and the
persisted (on-disk) Index Map keys. -/
structure AddState where
  colEntries : List (ℕ × String)
  idMapKeys : List ℕ
  nextIndex : ℕ
  persisted : List ℕ
deriving DecidableEq

/-- Embeds `MemoryStore.add` with the outcomes of its three external
steps as parameters: `embedOk` the embedding-service call, `colAddOk`
the vector-index insert, `saveOk` the Index-Map write inside
`_save_index`.  A failure of the first two is caught by `add`'s handler
(state untouched, returns −1); `_save_index` catches its own failure
internally, so `add` proceeds normally in that case. -/
def addOp (embedOk colAddOk saveOk : Bool) (text : String) (s : AddState) :
    ℤ × AddState :=
  if embedOk = false then (-1, s)
  else if colAddOk = false then (-1, s)
  else
    ((s.nextIndex : ℤ),
      ⟨s.colEntries ++ [(s.nextIndex, text)],
        s.idMapKeys ++ [s.nextIndex],
        s.nextIndex + 1,
        if saveOk then s.idMapKeys ++ [s.nextIndex] else s.persisted⟩)

/-- C3 counterexample: when only the Index-Map persistence step fails,
`add` still returns the (nonnegative) new key and the store state has
changed — `_save_index` swallows the error, so the claimed rollback to
an unchanged state with a negative sentinel does not happen. -/
theorem add_not_atomic_on_save_failure :
    (addOp true true false "note" ⟨[], [], 0, []⟩).1 = 0 ∧
    ¬ (addOp true true false "note" ⟨[], [], 0, []⟩).2 = ⟨[], [], 0, []⟩ := by
  constructor
  · rfl
  · decide

/-- C3 (amended): if the embedding call fails, or the embedding call
succeeds and the vector-index insert fails, `add` returns the sentinel
−1 and the store state is completely unchanged (no vector-index entry,
no Index Map entry, `next_index` not advanced, nothing persisted); if
both succeed, `add` returns the nonnegative new key, and when only the
persistence step fails the failure is swallowed: the in-memory state
advances while the on-disk Index Map keeps its prior value. -/
theorem add_rollback_on_embed_or_insert_failure (saveOk : Bool)
    (text : String) (s : AddState) :
    (∀ colAddOk, addOp false colAddOk saveOk text s = (-1, s)) ∧
    addOp true false saveOk text s = (-1, s) ∧
    ((addOp true true saveOk text s).1 = (s.nextIndex : ℤ) ∧
      (addOp true true saveOk text s).2.nextIndex = s.nextIndex + 1 ∧
      (addOp true true saveOk text s).2.idMapKeys =
        s.idMapKeys ++ [s.nextIndex] ∧
      (addOp true true saveOk text s).2.colEntries =
        s.colEntries ++ [(s.nextIndex, text)] ∧
      (saveOk = false →
        (addOp true true saveOk text s).2.persisted = s.persisted)) := by
  refine ⟨fun colAddOk => rfl, rfl, rfl, rfl, rfl, rfl, fun h => ?_⟩
  subst h; rfl

/-- Witness for `add_rollback_on_embed_or_insert_failure` at a concrete
state with the persistence step failing. -/
theorem add_rollback_witness :
    (∀ colAddOk,
      addOp false colAddOk false "m" ⟨[(0, "a")], [0], 1, [0]⟩ =
        (-1, ⟨[(0, "a")], [0], 1, [0]⟩)) ∧
    addOp true false false "m" ⟨[(0, "a")], [0], 1, [0]⟩ =
      (-1, ⟨[(0, "a")], [0], 1, [0]⟩) ∧
    ((addOp true true false "m" ⟨[(0, "a")], [0], 1, [0]⟩).1 = ((1 : ℕ) : ℤ) ∧
      (addOp true true false "m" ⟨[(0, "a")], [0], 1, [0]⟩).2.nextIndex =
        1 + 1 ∧
      (addOp true true false "m" ⟨[(0, "a")], [0], 1, [0]⟩).2.idMapKeys =
        [0] ++ [1] ∧
      (addOp true true false "m" ⟨[(0, "a")], [0], 1, [0]⟩).2.colEntries =
        [(0, "a")] ++ [(1, "m")] ∧
      ((false = false) →
        (addOp true true false "m" ⟨[(0, "a")], [0], 1, [0]⟩).2.persisted =
          [0])) :=
  add_rollback_on_embed_or_insert_failure false "m" ⟨[(0, "a")], [0], 1, [0]⟩

/- ────────────────────────────────────────────────────────────────────
   § Dream output validation
   dev_server.py, `validate_dream_output` lines 479-508 and `dream`
   lines 511-582.
   ──────────────────────────────────────────────────────────────────── -/

/-- Modelled from the spec: the external reference tokenizer (tiktoken,
§6 of the spec) is modelled character-wise — `encode` maps text to the
list of its characters, one token per character, so `decode ∘ encode`
is the identity and the token count is additive over concatenation.
Encoding of a valid string never raises, so the internal handler of
`validate_dream_output` is never entered. -/
def dreamEncode (s : List Char) : List Char := s

/-- Modelled from the spec: inverse of `dreamEncode` (token decoding). -/
def dreamDecode (ts : List Char) : List Char := ts

/-- Embeds Python `str.split(sep)` for a one-character separator:
splits at every occurrence, keeping empty pieces. -/
def pySplit (c : Char) : List Char → List (List Char)
  | [] => [[]]
  | a :: as =>
      if a = c then [] :: pySplit c as
      else
        match pySplit c as with
        | [] => [[a]]
        | r :: rs => (a :: r) :: rs

/-- Embeds Python `sep.join(parts)` for a one-character separator. -/
def pyJoin (c : Char) : List (List Char) → List Char
  | [] => []
  | [p] => p
  | p :: q :: ps => p ++ c :: pyJoin c (q :: ps)

/-- Embeds Python `str.strip()`: whitespace removed from both ends. -/
def pyStrip (s : List Char) : List Char :=
  ((s.dropWhile Char.isWhitespace).reverse.dropWhile Char.isWhitespace).reverse

/-- The fixed sentinel `validate_dream_output` returns for empty
content. -/
def emptyDreamSentinel : List Char :=
  "The synthesis chamber lies empty, awaiting memories to weave into dreams.".toList

/-- Embeds the truncation block of `validate_dream_output` (the body of
`if len(tokens) > max_tokens`): truncate to the ceiling, decode, split
on `'.'`, drop the last piece when there are at least two, re-join with
`'.'` and append a final `'.'`. -/
def truncDream (maxTokens : ℕ) (tokens : List Char) : List Char :=
  let c := dreamDecode (tokens.take maxTokens)
  let sentences := pySplit '.' c
  let sentences2 :=
    if 1 < sentences.length ∧ pyStrip (sentences.getLastD []) = [] then
      sentences.dropLast
    else if 1 < sentences.length then
      sentences.dropLast
    else sentences
  pyJoin '.' sentences2 ++ ['.']

/-- Embeds `validate_dream_output`: empty content yields the sentinel;
content over the token ceiling is truncated via `truncDream`; the
result is stripped. -/
def validate_dream_output (maxTokens : ℕ) (content : List Char) :
    List Char :=
  if content = [] then emptyDreamSentinel
  else
    pyStrip (if maxTokens < (dreamEncode content).length
      then truncDream maxTokens (dreamEncode content) else content)

/-- The empty-store early return of `dream`. -/
def noMemoriesDream : List Char :=
  "No memories stored yet. The dreaming mind awaits first impressions to weave into synthesis.".toList

/-- Embeds the fallback response of `dream`'s exception handler: fixed
text plus the first 100 characters of the error message. -/
def dreamFallbackOutput (err : List Char) : List Char :=
  "The synthesis chamber encounters turbulence. Memory threads remain tangled. (Error: ".toList
    ++ err.take 100 ++ ")".toList

/-- Embeds the `dream` tool: on an empty memory query result it returns
the fixed no-memories text without calling the completion service;
otherwise the completion output (a parameter) is validated, and a
completion failure yields the fallback text. -/
def dream (maxTokens : ℕ) (memories : List QueryRecord)
    (completion : Except (List Char) (List Char)) : List Char :=
  if memories = [] then noMemoriesDream
  else
    match completion with
    | .ok synthesis => validate_dream_output maxTokens synthesis
    | .error e => dreamFallbackOutput e

/-- Python `split` never returns an empty list of pieces. -/
theorem pySplit_ne_nil (c : Char) (s : List Char) : pySplit c s ≠ [] := by
  cases s with
  | nil => simp [pySplit]
  | cons a as =>
      simp only [pySplit]
      split
      · simp
      · split <;> simp

/-- Joining with the separator it was split on restores the string. -/
theorem pyJoin_pySplit (c : Char) (s : List Char) :
    pyJoin c (pySplit c s) = s := by
  induction s with
  | nil => rfl
  | cons a as ih =>
      rcases hrest : pySplit c as with _ | ⟨r, rs⟩
      · exact absurd hrest (pySplit_ne_nil c as)
      · rw [hrest] at ih
        by_cases h : a = c
        · have hsp : pySplit c (a :: as) = [] :: r :: rs := by
            simp only [pySplit, if_pos h, hrest]
          rw [hsp]
          show [] ++ c :: pyJoin c (r :: rs) = a :: as
          rw [ih, h, List.nil_append]
        · have hsp : pySplit c (a :: as) = (a :: r) :: rs := by
            simp only [pySplit, if_neg h, hrest]
          rw [hsp]
          cases rs with
          | nil =>
              show a :: r = a :: as
              rw [show r = as from ih]
          | cons q qs =>
              show (a :: r) ++ c :: pyJoin c (q :: qs) = a :: as
              rw [List.cons_append, ← ih]
              rfl

/-- Unfolding `pyJoin` on a cons with a nonempty tail. -/
theorem pyJoin_cons_of_ne_nil (c : Char) (p : List Char)
    (l : List (List Char)) (h : l ≠ []) :
    pyJoin c (p :: l) = p ++ c :: pyJoin c l := by
  cases l with
  | nil => exact absurd rfl h
  | cons q qs => rfl

/-- The default-valued last element of a cons with nonempty tail. -/
theorem getLastD_cons_of_ne_nil {α : Type} (a : α) (l : List α) (d : α)
    (h : l ≠ []) : (a :: l).getLastD d = l.getLastD d := by
  cases l with
  | nil => exact absurd rfl h
  | cons b t => rfl

/-- A join of at least two pieces splits as the join of all but the
last, the separator, and the last piece. -/
theorem pyJoin_eq_dropLast_append (c : Char) :
    ∀ ps : List (List Char), 2 ≤ ps.length →
      pyJoin c ps = pyJoin c ps.dropLast ++ c :: ps.getLastD []
  | [], h => by simp at h
  | [_], h => by simp at h
  | p :: q :: qs, _ => by
      cases qs with
      | nil => rfl
      | cons w ws =>
          have hrec := pyJoin_eq_dropLast_append c (q :: w :: ws) (by simp)
          have hne : (q :: w :: ws).dropLast ≠ [] := by
            simp [List.dropLast_cons₂]
          have h1 : (p :: q :: w :: ws).dropLast =
              p :: (q :: w :: ws).dropLast := rfl
          have h2 : (p :: q :: w :: ws).getLastD [] =
              (q :: w :: ws).getLastD [] :=
            getLastD_cons_of_ne_nil p _ _ (by simp)
          show p ++ c :: pyJoin c (q :: w :: ws) = _
          rw [h1, h2, pyJoin_cons_of_ne_nil c p _ hne, hrec,
            List.append_assoc]
          rfl

/-- No piece produced by `pySplit` contains the separator. -/
theorem not_mem_pySplit (c : Char) (s : List Char) :
    ∀ p ∈ pySplit c s, c ∉ p := by
  induction s with
  | nil =>
      intro p hp
      simp only [pySplit, List.mem_singleton] at hp
      subst hp
      simp
  | cons a as ih =>
      intro p hp
      rcases hrest : pySplit c as with _ | ⟨r, rs⟩
      · exact absurd hrest (pySplit_ne_nil c as)
      · by_cases h : a = c
        · rw [show pySplit c (a :: as) = [] :: pySplit c as from by
            simp only [pySplit, if_pos h]] at hp
          rcases List.mem_cons.mp hp with rfl | hp'
          · simp
          · exact ih p hp'
        · rw [show pySplit c (a :: as) = (a :: r) :: rs from by
            simp only [pySplit, if_neg h, hrest]] at hp
          rcases List.mem_cons.mp hp with rfl | hp'
          · intro hc
            rcases List.mem_cons.mp hc with rfl | hc'
            · exact h rfl
            · exact ih r (hrest ▸ List.mem_cons_self r rs) hc'
          · exact ih p (hrest ▸ List.mem_cons_of_mem r hp')

/-- A string containing the separator splits into at least two pieces. -/
theorem one_lt_length_pySplit_of_mem (c : Char) (s : List Char)
    (h : c ∈ s) : 1 < (pySplit c s).length := by
  induction s with
  | nil => cases h
  | cons a as ih =>
      by_cases hac : a = c
      · have hne := pySplit_ne_nil c as
        rw [show pySplit c (a :: as) = [] :: pySplit c as from by
          simp only [pySplit, if_pos hac]]
        have : 0 < (pySplit c as).length := List.length_pos.mpr hne
        simp only [List.length_cons]
        omega
      · have h' : c ∈ as := by
          rcases List.mem_cons.mp h with rfl | h'
          · exact absurd rfl hac
          · exact h'
        rcases hrest : pySplit c as with _ | ⟨r, rs⟩
        · exact absurd hrest (pySplit_ne_nil c as)
        · rw [show pySplit c (a :: as) = (a :: r) :: rs from by
            simp only [pySplit, if_neg hac, hrest]]
          have := ih h'
          rw [hrest] at this
          simp only [List.length_cons] at this ⊢
          omega

/-- A string splitting into at least two pieces contains the separator. -/
theorem mem_of_one_lt_length_pySplit (c : Char) (s : List Char)
    (h : 1 < (pySplit c s).length) : c ∈ s := by
  induction s with
  | nil => simp [pySplit] at h
  | cons a as ih =>
      by_cases hac : a = c
      · exact hac ▸ List.mem_cons_self a as
      · rcases hrest : pySplit c as with _ | ⟨r, rs⟩
        · exact absurd hrest (pySplit_ne_nil c as)
        · rw [show pySplit c (a :: as) = (a :: r) :: rs from by
            simp only [pySplit, if_neg hac, hrest]] at h
          simp only [List.length_cons] at h
          refine List.mem_cons_of_mem a (ih ?_)
          rw [hrest]
          simp only [List.length_cons]
          omega

/-- Dropping a prefix never lengthens a list. -/
theorem length_dropWhile_le' {α : Type} (p : α → Bool) (l : List α) :
    (l.dropWhile p).length ≤ l.length := by
  induction l with
  | nil => simp
  | cons a t ih =>
      by_cases h : p a
      · rw [List.dropWhile_cons, if_pos h]
        exact le_trans ih (Nat.le_succ _)
      · rw [List.dropWhile_cons, if_neg h]

/-- The head surviving `dropWhile` fails the predicate. -/
theorem head?_dropWhile_false {α : Type} (p : α → Bool) (l : List α) :
    ∀ a, (l.dropWhile p).head? = some a → p a = false := by
  induction l with
  | nil => intro a h; simp at h
  | cons b t ih =>
      intro a h
      by_cases hb : p b
      · rw [List.dropWhile_cons, if_pos hb] at h
        exact ih a h
      · rw [List.dropWhile_cons, if_neg hb] at h
        simp only [List.head?_cons, Option.some.injEq] at h
        subst h
        exact Bool.not_eq_true _ ▸ (by simpa using hb)

/-- A list whose head fails the predicate is untouched by `dropWhile`. -/
theorem dropWhile_eq_self_of_head? {α : Type} (p : α → Bool) (l : List α)
    (h : ∀ b, l.head? = some b → p b = false) : l.dropWhile p = l := by
  cases l with
  | nil => rfl
  | cons b t =>
      rw [List.dropWhile_cons, if_neg]
      simp [h b rfl]

/-- When `dropWhile` leaves something, the last element is unchanged. -/
theorem getLast?_dropWhile {α : Type} (p : α → Bool) (l : List α)
    (h : l.dropWhile p ≠ []) : (l.dropWhile p).getLast? = l.getLast? := by
  induction l with
  | nil => simp at h
  | cons b t ih =>
      by_cases hb : p b
      · rw [List.dropWhile_cons, if_pos hb] at h ⊢
        have ht : t ≠ [] := by
          intro he
          subst he
          simp at h
        rw [ih h]
        cases t with
        | nil => exact absurd rfl ht
        | cons x xs => rfl

      · rw [List.dropWhile_cons, if_neg hb]

/-- A list whose `dropWhile` keeps its length is untouched by it. -/
theorem dropWhile_eq_self_of_length {α : Type} (p : α → Bool) (l : List α)
    (h : (l.dropWhile p).length = l.length) : l.dropWhile p = l := by
  cases l with
  | nil => rfl
  | cons b t =>
      by_cases hb : p b
      · exfalso
        rw [List.dropWhile_cons, if_pos hb] at h
        have := length_dropWhile_le' p t
        simp only [List.length_cons] at h
        omega
      · rw [List.dropWhile_cons, if_neg hb]

/-- Dropping while a predicate holds distributes over appending a
single failing element. -/
theorem dropWhile_append_singleton {α : Type} (p : α → Bool) (a : α)
    (ha : p a = false) (s : List α) :
    (s ++ [a]).dropWhile p = s.dropWhile p ++ [a] := by
  induction s with
  | nil => simp [List.dropWhile_cons, ha]
  | cons b t ih =>
      by_cases hb : p b
      · rw [List.cons_append, List.dropWhile_cons, if_pos hb,
          List.dropWhile_cons, if_pos hb, ih]
      · rw [List.cons_append, List.dropWhile_cons, if_neg hb,
          List.dropWhile_cons, if_neg hb, List.cons_append]

/-- Stripping never lengthens the text. -/
theorem pyStrip_length_le (s : List Char) :
    (pyStrip s).length ≤ s.length := by
  unfold pyStrip
  rw [List.length_reverse]
  calc ((s.dropWhile Char.isWhitespace).reverse.dropWhile
          Char.isWhitespace).length
      ≤ (s.dropWhile Char.isWhitespace).reverse.length :=
        length_dropWhile_le' _ _
    _ = (s.dropWhile Char.isWhitespace).length := List.length_reverse _
    _ ≤ s.length := length_dropWhile_le' _ _

/-- Stripping is idempotent. -/
theorem pyStrip_idem (s : List Char) : pyStrip (pyStrip s) = pyStrip s := by
  by_cases hznil : (s.dropWhile Char.isWhitespace).reverse.dropWhile
      Char.isWhitespace = []
  · have h0 : pyStrip s = [] := by
      unfold pyStrip
      rw [hznil]
      rfl
    rw [h0]
    rfl
  · have hA : ((s.dropWhile Char.isWhitespace).reverse.dropWhile
        Char.isWhitespace).reverse.dropWhile Char.isWhitespace =
        ((s.dropWhile Char.isWhitespace).reverse.dropWhile
          Char.isWhitespace).reverse := by
      apply dropWhile_eq_self_of_head?
      intro b hb
      rw [List.head?_reverse] at hb
      rw [getLast?_dropWhile _ _ hznil, List.getLast?_reverse] at hb
      exact head?_dropWhile_false _ s b hb
    show pyStrip (((s.dropWhile Char.isWhitespace).reverse.dropWhile
        Char.isWhitespace).reverse) = _
    unfold pyStrip
    rw [hA, List.reverse_reverse, List.dropWhile_idempotent]

/-- Stripping text that ends in a non-whitespace character keeps that
character and strips only the front. -/
theorem pyStrip_append_of_not_ws (s : List Char) (a : Char)
    (ha : Char.isWhitespace a = false) :
    pyStrip (s ++ [a]) = s.dropWhile Char.isWhitespace ++ [a] := by
  unfold pyStrip
  rw [dropWhile_append_singleton _ a ha, List.reverse_append]
  have hmid : ([a].reverse ++ (s.dropWhile Char.isWhitespace).reverse).dropWhile
      Char.isWhitespace = a :: (s.dropWhile Char.isWhitespace).reverse := by
    show (a :: (s.dropWhile Char.isWhitespace).reverse).dropWhile
        Char.isWhitespace = _
    rw [List.dropWhile_cons, if_neg (by simp [ha])]
  rw [hmid, List.reverse_cons, List.reverse_reverse]

/-- The default-valued last element of a nonempty list is a member. -/
theorem getLastD_mem {α : Type} (d : α) :
    ∀ ps : List α, ps ≠ [] → ps.getLastD d ∈ ps
  | [], h => absurd rfl h
  | [x], _ => by simp
  | x :: y :: t, _ => by
      have := getLastD_mem d (y :: t) (by simp)
      rw [getLastD_cons_of_ne_nil x (y :: t) d (by simp)]
      exact List.mem_cons_of_mem x this

/-- When the truncated text splits into at least two pieces,
`truncDream` drops the last piece and re-joins (both branches of the
internal `if` do the same). -/
theorem truncDream_eq_dropLast (N : ℕ) (tokens : List Char)
    (h : 1 < (pySplit '.' (tokens.take N)).length) :
    truncDream N tokens =
      pyJoin '.' ((pySplit '.' (tokens.take N)).dropLast) ++ ['.'] := by
  simp only [truncDream, dreamDecode]
  by_cases h1 : 1 < (pySplit '.' (tokens.take N)).length ∧
      pyStrip ((pySplit '.' (tokens.take N)).getLastD []) = []
  · rw [if_pos h1]
  · rw [if_neg h1, if_pos h]

/-- When the truncated text has no sentence delimiter, `truncDream`
keeps it whole and appends a delimiter. -/
theorem truncDream_eq_append (N : ℕ) (tokens : List Char)
    (h : ¬ 1 < (pySplit '.' (tokens.take N)).length) :
    truncDream N tokens = tokens.take N ++ ['.'] := by
  rcases hsp : pySplit '.' (tokens.take N) with _ | ⟨p, ps⟩
  · exact absurd hsp (pySplit_ne_nil _ _)
  · have hps : ps = [] := by
      rw [hsp] at h
      cases ps with
      | nil => rfl
      | cons q qs => simp at h
    subst hps
    have hp : p = tokens.take N := by
      have hj := pyJoin_pySplit '.' (tokens.take N)
      rw [hsp] at hj
      exact hj
    simp only [truncDream, dreamDecode, hsp]
    rw [if_neg (by simp), if_neg (by simp)]
    show pyJoin '.' [p] ++ ['.'] = tokens.take N ++ ['.']
    rw [show pyJoin '.' [p] = p from rfl, hp]

/-- Length bound for the truncation block: at most one over the
ceiling in general, and within the ceiling when the truncated text
contains a delimiter. -/
theorem truncDream_length_le (N : ℕ) (tokens : List Char)
    (hN : N ≤ tokens.length) :
    (truncDream N tokens).length ≤ N + 1 ∧
    (1 < (pySplit '.' (tokens.take N)).length →
      (truncDream N tokens).length ≤ N) := by
  have htake : (tokens.take N).length = N := by
    simp [List.length_take]
    omega
  by_cases h : 1 < (pySplit '.' (tokens.take N)).length
  · have heq := truncDream_eq_dropLast N tokens h
    have hjoin := pyJoin_eq_dropLast_append '.'
      (pySplit '.' (tokens.take N)) (by omega)
    have hfull : pyJoin '.' (pySplit '.' (tokens.take N)) = tokens.take N :=
      pyJoin_pySplit _ _
    have hlen : (pyJoin '.' ((pySplit '.' (tokens.take N)).dropLast)).length
        + 1 ≤ N := by
      have h1 := congrArg List.length hjoin
      rw [hfull, htake] at h1
      simp only [List.length_append, List.length_cons] at h1
      omega
    rw [heq]
    simp only [List.length_append, List.length_cons, List.length_nil]
    omega
  · have heq := truncDream_eq_append N tokens h
    refine ⟨?_, fun h' => absurd h' h⟩
    rw [heq]
    simp only [List.length_append, List.length_cons, List.length_nil]
    omega

/-- Unfolding `validate_dream_output` for nonempty content within the
ceiling: the content is merely stripped. -/
theorem vdo_of_le (N : ℕ) (content : List Char) (h : content ≠ [])
    (hlen : ¬ N < content.length) :
    validate_dream_output N content = pyStrip content := by
  simp only [validate_dream_output, dreamEncode]
  rw [if_neg h, if_neg hlen]

/-- Unfolding `validate_dream_output` for content over the ceiling:
the truncation block runs, then the result is stripped. -/
theorem vdo_of_gt (N : ℕ) (content : List Char) (h : content ≠ [])
    (hlen : N < content.length) :
    validate_dream_output N content = pyStrip (truncDream N content) := by
  simp only [validate_dream_output, dreamEncode]
  rw [if_neg h, if_pos hlen]

/-- C6 counterexample: a completion of 351 delimiter-free tokens
truncates to 350 tokens with no sentence boundary, and the code then
appends a delimiter — the dream output has 351 tokens, exceeding the
350-token ceiling. -/
theorem dream_exceeds_token_ceiling :
    350 < (dream 350 [⟨"m", 1, "t", none⟩]
      (.ok (List.replicate 351 'a'))).length := by
  have hdream : dream 350 [⟨"m", 1, "t", none⟩]
      (.ok (List.replicate 351 'a')) =
      validate_dream_output 350 (List.replicate 351 'a') := rfl
  rw [hdream]
  have hlrep : (List.replicate 351 'a').length = 351 :=
    List.length_replicate 351 'a'
  have hne : List.replicate 351 'a' ≠ [] := by
    apply List.ne_nil_of_length_pos
    omega
  have hgt : 350 < (List.replicate 351 'a').length := by omega
  rw [vdo_of_gt 350 _ hne hgt]
  have htake : (List.replicate 351 'a').take 350 = List.replicate 350 'a' := by
    rw [List.take_replicate]
    norm_num
  have hnsp : ¬ 1 < (pySplit '.' ((List.replicate 351 'a').take 350)).length := by
    intro hcon
    have hm := mem_of_one_lt_length_pySplit _ _ hcon
    rw [htake, List.mem_replicate] at hm
    exact absurd hm.2 (by decide)
  rw [truncDream_eq_append 350 _ hnsp, htake,
    pyStrip_append_of_not_ws _ '.' (by decide)]
  have h350 : List.replicate 350 'a' = 'a' :: List.replicate 349 'a' := by
    rw [show (350 : ℕ) = 349 + 1 from rfl, List.replicate_succ]
  have hdw : (List.replicate 350 'a').dropWhile Char.isWhitespace =
      List.replicate 350 'a' := by
    apply dropWhile_eq_self_of_head?
    intro b hb
    rw [h350] at hb
    simp only [List.head?_cons, Option.some.injEq] at hb
    subst hb
    decide
  rw [hdw]
  simp only [List.length_append, List.length_replicate, List.length_cons,
    List.length_nil]
  omega

/-- C6 (amended): the validated dream output never exceeds the ceiling
plus one token; it stays within the 350-token ceiling whenever the
input is already compliant or the truncated text contains a sentence
delimiter (the single-token overshoot happens exactly when a
delimiter-free truncation gets a delimiter appended); and the
completion-failure fallback always respects the ceiling. -/
theorem dream_output_bounded_near_ceiling (content err : List Char)
    (mems : List QueryRecord) :
    (validate_dream_output 350 content).length ≤ 351 ∧
    (content.length ≤ 350 →
      (validate_dream_output 350 content).length ≤ 350) ∧
    ('.' ∈ content.take 350 →
      (validate_dream_output 350 content).length ≤ 350) ∧
    (mems ≠ [] → (dream 350 mems (.error err)).length ≤ 350) := by
  have hfallback : mems ≠ [] → (dream 350 mems (.error err)).length ≤ 350 := by
    intro hm
    have : dream 350 mems (.error err) = dreamFallbackOutput err := by
      simp [dream, hm]
    rw [this]
    simp only [dreamFallbackOutput, List.length_append, List.length_take]
    have h84 : ("The synthesis chamber encounters turbulence. Memory threads remain tangled. (Error: ".toList).length = 84 := by
      decide
    have h1 : (")".toList).length = 1 := by decide
    rw [h84, h1]
    omega
  by_cases hnil : content = []
  · subst hnil
    exact ⟨by decide, fun _ => by decide, fun h => absurd h (by decide),
      hfallback⟩
  · by_cases hlen : 350 < content.length
    · have heq := vdo_of_gt 350 content hnil hlen
      have hb := truncDream_length_le 350 content (le_of_lt hlen)
      have hstrip := pyStrip_length_le (truncDream 350 content)
      refine ⟨?_, fun h => absurd h (by omega), ?_, hfallback⟩
      · rw [heq]
        omega
      · intro hmem
        have hsp := one_lt_length_pySplit_of_mem '.' (content.take 350) hmem
        have := hb.2 hsp
        rw [heq]
        omega
    · have heq := vdo_of_le 350 content hnil hlen
      have hstrip := pyStrip_length_le content
      refine ⟨by rw [heq]; omega, fun _ => by rw [heq]; omega,
        fun _ => by rw [heq]; omega, hfallback⟩

/-- Witness for `dream_output_bounded_near_ceiling` at concrete
arguments. -/
theorem dream_output_bounded_near_ceiling_witness :
    (validate_dream_output 350 ['a']).length ≤ 351 ∧
    (['a'].length ≤ 350 → (validate_dream_output 350 ['a']).length ≤ 350) ∧
    ('.' ∈ ['a'].take 350 → (validate_dream_output 350 ['a']).length ≤ 350) ∧
    ([⟨"m", 1, "t", none⟩] ≠ ([] : List QueryRecord) →
      (dream 350 [⟨"m", 1, "t", none⟩] (.error ['e'])).length ≤ 350) :=
  dream_output_bounded_near_ceiling ['a'] ['e'] [⟨"m", 1, "t", none⟩]

/-- The default-valued last element of a list ending in `a` is `a`. -/
theorem getLastD_append_singleton {α : Type} (a d : α) :
    ∀ l : List α, (l ++ [a]).getLastD d = a
  | [] => rfl
  | b :: t => by
      rw [List.cons_append,
        getLastD_cons_of_ne_nil b (t ++ [a]) d (by simp)]
      exact getLastD_append_singleton a d t

/-- C7 counterexample: a single space is within the token ceiling, yet
`validate_dream_output` is not a no-op on it (it strips it to the empty
string), and applying the validator twice differs from applying it once
(the second application replaces the empty string by the sentinel). -/
theorem validate_dream_not_idempotent_on_space :
    validate_dream_output 350 [' '] ≠ [' '] ∧
    validate_dream_output 350 (validate_dream_output 350 [' ']) ≠
      validate_dream_output 350 [' '] := by
  decide

/-- C7 (amended): the token-enforcement step is a deterministic pure
function; it is a no-op on nonempty, already-stripped output within the
ceiling (in general it additionally strips surrounding whitespace, and
a whitespace-only input breaks idempotence by collapsing to the empty
string, which a second application replaces with the sentinel);
applying it twice equals applying it once whenever the first
application returns nonempty text; and when it truncates, the output
always ends in a sentence delimiter — the trailing delimiter-free
fragment is dropped when the truncated text contains a delimiter, but
when it contains none the whole fragment is kept and a delimiter is
appended. -/
theorem validate_dream_idempotent_shape (content : List Char) :
    (pyStrip content = content → content ≠ [] → content.length ≤ 350 →
      validate_dream_output 350 content = content) ∧
    (validate_dream_output 350 content ≠ [] →
      validate_dream_output 350 (validate_dream_output 350 content) =
        validate_dream_output 350 content) ∧
    (350 < content.length →
      (validate_dream_output 350 content).getLastD ' ' = '.') ∧
    (350 < content.length → '.' ∉ content.take 350 →
      validate_dream_output 350 content =
        (content.take 350).dropWhile Char.isWhitespace ++ ['.']) ∧
    (350 < content.length → '.' ∈ content.take 350 →
      ∃ u v, content.take 350 = u ++ '.' :: v ∧ '.' ∉ v ∧
        validate_dream_output 350 content = pyStrip (u ++ ['.'])) := by
  by_cases hnil : content = []
  · subst hnil
    refine ⟨fun _ h _ => absurd rfl h, fun _ => by decide,
      fun h => absurd h (by decide), fun h => absurd h (by decide),
      fun h => absurd h (by decide)⟩
  · by_cases hlen : 350 < content.length
    · -- over the ceiling: the truncation block runs
      have htlen : (content.take 350).length = 350 := by
        simp only [List.length_take]
        omega
      have heqgt := vdo_of_gt 350 content hnil hlen
      by_cases hsp : 1 < (pySplit '.' (content.take 350)).length
      · -- delimiter present in the truncated text
        have htd := truncDream_eq_dropLast 350 content hsp
        have hjoin := pyJoin_eq_dropLast_append '.'
          (pySplit '.' (content.take 350)) (by omega)
        have hfull : pyJoin '.' (pySplit '.' (content.take 350)) =
            content.take 350 := pyJoin_pySplit _ _
        have hbound := (truncDream_length_le 350 content (le_of_lt hlen)).2 hsp
        refine ⟨fun _ _ h => absurd hlen (by omega), ?_, ?_, ?_, ?_⟩
        · -- idempotence
          intro hne2
          have hsmall : ¬ 350 < (validate_dream_output 350 content).length := by
            rw [heqgt]
            have := pyStrip_length_le (truncDream 350 content)
            omega
          rw [vdo_of_le 350 _ hne2 hsmall, heqgt, pyStrip_idem]
        · -- ends in a delimiter
          intro _
          rw [heqgt, htd, pyStrip_append_of_not_ws _ '.' (by decide),
            getLastD_append_singleton]
        · intro _ hmem
          exact absurd (mem_of_one_lt_length_pySplit '.' _ hsp) hmem
        · -- last-sentence trimming
          intro _ _
          refine ⟨pyJoin '.' ((pySplit '.' (content.take 350)).dropLast),
            (pySplit '.' (content.take 350)).getLastD [], ?_, ?_, ?_⟩
          · exact hfull.symm.trans hjoin
          · exact not_mem_pySplit '.' (content.take 350) _
              (getLastD_mem [] _ (pySplit_ne_nil '.' _))
          · rw [heqgt, htd]
      · -- no delimiter in the truncated text
        have hta := truncDream_eq_append 350 content hsp
        have hshape : validate_dream_output 350 content =
            (content.take 350).dropWhile Char.isWhitespace ++ ['.'] := by
          rw [heqgt, hta, pyStrip_append_of_not_ws _ '.' (by decide)]
        refine ⟨fun _ _ h => absurd hlen (by omega), ?_, ?_,
          fun _ _ => hshape, ?_⟩
        · -- idempotence
          intro hne2
          by_cases hsmall :
              ((content.take 350).dropWhile Char.isWhitespace).length + 1 ≤ 350
          · have hle : ¬ 350 < (validate_dream_output 350 content).length := by
              rw [hshape]
              simp only [List.length_append, List.length_cons,
                List.length_nil]
              omega
            rw [vdo_of_le 350 _ hne2 hle, heqgt, pyStrip_idem]
          · -- the stripped fragment still fills the whole ceiling
            have hdwlen :
                ((content.take 350).dropWhile Char.isWhitespace).length =
                  350 := by
              have := length_dropWhile_le' Char.isWhitespace
                (content.take 350)
              omega
            have hdweq : (content.take 350).dropWhile Char.isWhitespace =
                content.take 350 :=
              dropWhile_eq_self_of_length _ _ (by rw [hdwlen, htlen])
            have hshape2 : validate_dream_output 350 content =
                content.take 350 ++ ['.'] := by rw [hshape, hdweq]
            have hlen2 : 350 < (validate_dream_output 350 content).length := by
              rw [hshape2]
              simp only [List.length_append, List.length_cons,
                List.length_nil]
              omega
            rw [vdo_of_gt 350 _ hne2 hlen2, hshape2]
            have htk : (content.take 350 ++ ['.']).take 350 =
                content.take 350 := by
              have hL := List.take_left (content.take 350) ['.']
              rwa [htlen] at hL
            have hnsp2 : ¬ 1 <
                (pySplit '.' ((content.take 350 ++ ['.']).take 350)).length := by
              rw [htk]
              exact hsp
            rw [truncDream_eq_append 350 _ hnsp2, htk,
              pyStrip_append_of_not_ws _ '.' (by decide), hdweq]
        · intro _
          rw [hshape, getLastD_append_singleton]
        · intro _ hmem
          exact absurd (one_lt_length_pySplit_of_mem '.' _ hmem) hsp
    · -- within the ceiling: only stripping happens
      have heq := vdo_of_le 350 content hnil hlen
      refine ⟨fun hstr _ _ => by rw [heq, hstr], ?_,
        fun h => absurd h hlen, fun h => absurd h hlen,
        fun h => absurd h hlen⟩
      intro hne2
      have hsmall : ¬ 350 < (validate_dream_output 350 content).length := by
        rw [heq]
        have := pyStrip_length_le content
        omega
      rw [vdo_of_le 350 _ hne2 hsmall, heq, pyStrip_idem]

/-- Witness for `validate_dream_idempotent_shape` at the concrete
already-stripped input text. -/
theorem validate_dream_idempotent_shape_witness :
    (pyStrip ['o', 'k'] = ['o', 'k'] → ['o', 'k'] ≠ [] →
      ['o', 'k'].length ≤ 350 →
      validate_dream_output 350 ['o', 'k'] = ['o', 'k']) ∧
    (validate_dream_output 350 ['o', 'k'] ≠ [] →
      validate_dream_output 350 (validate_dream_output 350 ['o', 'k']) =
        validate_dream_output 350 ['o', 'k']) ∧
    (350 < ['o', 'k'].length →
      (validate_dream_output 350 ['o', 'k']).getLastD ' ' = '.') ∧
    (350 < ['o', 'k'].length → '.' ∉ ['o', 'k'].take 350 →
      validate_dream_output 350 ['o', 'k'] =
        (['o', 'k'].take 350).dropWhile Char.isWhitespace ++ ['.']) ∧
    (350 < ['o', 'k'].length → '.' ∈ ['o', 'k'].take 350 →
      ∃ u v, ['o', 'k'].take 350 = u ++ '.' :: v ∧ '.' ∉ v ∧
        validate_dream_output 350 ['o', 'k'] = pyStrip (u ++ ['.'])) :=
  validate_dream_idempotent_shape ['o', 'k']

end Closer
